import Mathlib

/-!
Verification of the clarityScripts repository's entity-reconciliation,
packaging, and index-assignment logic.

The Python sources are shallowly embedded below:
* `src/magnis_xml_parse_RNA.py`: `convert_mmyy_to_date`,
  `get_magnis_index_label`, `parse_index_strip_number`, `parse_position`,
  the container-position sort and index assignment inside
  `match_samples_and_add_index_labels`, and the reagent-lot resolve-or-create
  flow (`find_reagent_lot` / `create_reagent_lot` /
  `find_existing_lot_by_all_lots` as driven by `process_reagent_kits`).
* `src/uploadSequencingFilesToProjects.py`: `interact_with_ab1_files`,
  `match_artifacts_to_files`, `group_matches_by_project`,
  `create_project_zip_files`, `upload_project_zips`,
  `publish_files_to_lablink`.

Python strings are embedded as Lean `String` (a wrapper around `List Char`;
Python compares strings lexicographically by code point, which is exactly
`charListLt` below).  Python `list.sort(key=...)` is a stable sort by a total
preorder on keys and is embedded as `List.insertionSort`, Mathlib's stable
sort.  Python dictionaries preserve insertion order and are embedded as
association lists.  External HTTP traffic is embedded by passing the
responses the code would receive as explicit arguments.  `str.upper` is
modelled on its ASCII fragment (`Char.toUpper`), which is the fragment the
scripts exercise.
-/

/-- Python `str.split(sep)` for a one-character separator `sep`
(`"".split(sep) == ['']`, `"a-".split('-') == ['a','']`). -/
def splitOnChar (sep : Char) : List Char → List (List Char)
  | [] => [[]]
  | c :: rest =>
    if c = sep then [] :: splitOnChar sep rest
    else
      match splitOnChar sep rest with
      | [] => [[c]]
      | g :: gs => (c :: g) :: gs

/-- Python string `<`: lexicographic comparison of code-point sequences. -/
def charListLt : List Char → List Char → Bool
  | _, [] => false
  | [], _ :: _ => true
  | c :: cs, d :: ds => if c = d then charListLt cs ds else decide (c < d)

/-- Whitespace stripped by Python `int(str)` before parsing (ASCII fragment). -/
def isPySpace (c : Char) : Bool :=
  c = ' ' || c = '\t' || c = '\n' || c = '\r' || c = '\x0b' || c = '\x0c'

/-- Strip leading and trailing whitespace from a character list. -/
def trimChars (cs : List Char) : List Char :=
  ((cs.dropWhile isPySpace).reverse.dropWhile isPySpace).reverse

/-- Digit-run parser for Python `int(str)`: consumes decimal digits with
single underscores allowed between digits.  `lastDigit` records whether the
previous character was a digit (an underscore is only legal after a digit and
the run must end in a digit). -/
def pyDigitsGo (acc : Nat) : List Char → Bool → Option Nat
  | [], lastDigit => if lastDigit then some acc else none
  | c :: cs, lastDigit =>
    if c.isDigit then pyDigitsGo (acc * 10 + (c.toNat - 48)) cs true
    else if c = '_' then
      if lastDigit then pyDigitsGo acc cs false else none
    else none

/-- Python `int(str)` on a character list: strip whitespace, optional single
sign, then a nonempty digit run (with Python's underscore rules).  Returns
`none` exactly when Python raises `ValueError`. -/
def pyIntL (cs : List Char) : Option Int :=
  match trimChars cs with
  | [] => none
  | c :: rest =>
    if c = '+' then (pyDigitsGo 0 rest false).map (fun n => (n : Int))
    else if c = '-' then (pyDigitsGo 0 rest false).map (fun n => -(n : Int))
    else (pyDigitsGo 0 (c :: rest) false).map (fun n => (n : Int))

/-- Python `int(str)`. -/
def pyInt (s : String) : Option Int :=
  pyIntL s.data

/-- `pat` occurs at the start of `s`. -/
def prefixOfL : List Char → List Char → Bool
  | [], _ => true
  | _ :: _, [] => false
  | c :: cs, d :: ds => c = d && prefixOfL cs ds

/-- `pat` occurs as a contiguous run inside `s`. -/
def subListL (pat : List Char) : List Char → Bool
  | [] => prefixOfL pat []
  | d :: ds => prefixOfL pat (d :: ds) || subListL pat ds

/-- Python `pat in s` for strings: contiguous substring containment. -/
def strContainsSub (s pat : String) : Bool :=
  subListL pat.data s.data

/-- Python `str.upper()` (ASCII fragment, the one the scripts exercise). -/
def upperStr (s : String) : String :=
  String.mk (s.data.map Char.toUpper)

/-- Gregorian leap-year test, as used by Python's `calendar`/`datetime`. -/
def isLeapYear (y : Int) : Bool :=
  (y % 4 == 0 && y % 100 != 0) || y % 400 == 0

/-- `calendar.monthrange(y, m).1`: the number of days in month `m` of year
`y`, for `m` in 1..12. -/
def monthLength (y m : Int) : Int :=
  if m = 1 then 31
  else if m = 2 then (if isLeapYear y then 29 else 28)
  else if m = 3 then 31
  else if m = 4 then 30
  else if m = 5 then 31
  else if m = 6 then 30
  else if m = 7 then 31
  else if m = 8 then 31
  else if m = 9 then 30
  else if m = 10 then 31
  else if m = 11 then 30
  else 31

/-- Two-digit zero padding, Python `f"{n:02d}"` for `0 <= n < 100`. -/
def pad2 (n : Int) : String :=
  if n < 10 then "0" ++ toString n else toString n

/-- `convert_mmyy_to_date` (src/magnis_xml_parse_RNA.py:80-108): convert an
`MMYY` expiry code to `YYYY-MM-DD`, the last calendar day of that month, or
`None` on invalid length, unparseable month/year fields, or a month outside 1..12
(where `calendar.monthrange` raises `IllegalMonthError`, a `ValueError`,
which the source catches and converts to `None`).  The reachable years are
1991..2099, so Python's `f"{year:04d}"` is plain `toString`. -/
def convert_mmyy_to_date (s : String) : Option String :=
  if s.length ≠ 4 then none
  else
    match pyIntL (s.data.take 2), pyIntL (s.data.drop 2) with
    | some m, some y =>
      let year := y + 2000
      if 1 ≤ m ∧ m ≤ 12 then
        some (toString year ++ "-" ++ pad2 m ++ "-" ++ pad2 (monthLength year m))
      else none
    | _, _ => none

/-- `get_magnis_index_label` (src/magnis_xml_parse_RNA.py:827-854), numeric
part: both arguments are clamped to 1 when outside their valid ranges
(1..24 strips, 1..8 positions), then `index = (strip - 1) * 8 + position`. -/
def get_magnis_index_number (strip_number sample_position : Int) : Int :=
  let s := if 1 ≤ strip_number ∧ strip_number ≤ 24 then strip_number else 1
  let p := if 1 ≤ sample_position ∧ sample_position ≤ 8 then sample_position else 1
  (s - 1) * 8 + p

/-- `get_magnis_index_label` returns the string `f'Magnis_{index_number}'`. -/
def get_magnis_index_label (strip_number sample_position : Int) : String :=
  "Magnis_" ++ toString (get_magnis_index_number strip_number sample_position)

/-- `parse_index_strip_number` (src/magnis_xml_parse_RNA.py:857-884): empty
barcode gives `None`; otherwise split on `'-'`, require at least two parts,
parse the last part with `int`, and require the value to lie in 1..24. -/
def parse_index_strip_number (barcode : String) : Option Int :=
  if barcode = "" then none
  else
    let parts := splitOnChar '-' barcode.data
    if 2 ≤ parts.length then
      match pyIntL (parts.getLastD []) with
      | some n => if 1 ≤ n ∧ n ≤ 24 then some n else none
      | none => none
    else none

/-- The caller's fallback (src/magnis_xml_parse_RNA.py:920-934): when
`parse_index_strip_number` returns `None` the engine warns and uses strip 1.
(`parse_index_strip_number` never returns 0, so Python's truthiness test
coincides with an `Option` match.) -/
def effective_strip_number (barcode : String) : Int :=
  (parse_index_strip_number barcode).getD 1

/-- `parse_position` (src/magnis_xml_parse_RNA.py:1006-1014): parse
`'A:3'`-style container positions into a `(row, column)` sort key; any
position that does not split into exactly two parts with an `int`-parseable
second part gets the sentinel key `('Z', 99)`. -/
def parse_position (pos : String) : String × Int :=
  match splitOnChar ':' pos.data with
  | [r, c] =>
    match pyIntL c with
    | some n => (String.mk r, n)
    | none => ("Z", 99)
  | _ => ("Z", 99)

/-- Python `<=` on `(str, int)` sort keys: lexicographic by code-point string
order, then integer order. -/
def keyLeB (p q : String × Int) : Bool :=
  charListLt p.1.data q.1.data || (p.1 == q.1 && decide (p.2 ≤ q.2))

/-- Non-strict key comparison on container positions, as used by
`artifacts_with_positions.sort(key=lambda x: parse_position(...))`. -/
def posLe (x y : String) : Prop :=
  keyLeB (parse_position x) (parse_position y) = true

instance : DecidableRel posLe :=
  fun _ _ => inferInstanceAs (Decidable (_ = true))

/-- The container-position sort on bare position strings
(src/magnis_xml_parse_RNA.py:1016): a stable sort by `parse_position`. -/
def sort_positions (l : List String) : List String :=
  List.insertionSort posLe l

/-- One entry of `artifacts_with_positions`, keeping the fields the sort and
the index assignment read. -/
structure MagnisArtifact where
  sample_name : Option String
  container_position : Option String
deriving DecidableEq

/-- Comparison of collected `(sample_name, container_position)` pairs by the
position key. -/
def pairPosLe (x y : String × String) : Prop :=
  posLe x.2 y.2

instance : DecidableRel pairPosLe :=
  fun _ _ => inferInstanceAs (Decidable (_ = true))

/-- The collection loop of `match_samples_and_add_index_labels`
(src/magnis_xml_parse_RNA.py:970-1003): keep only artifacts that expose a
sample name, whose name is in the run manifest's declared sample list, and
that have a container position; everything else is skipped (never assigned a
slot). -/
def collect_artifacts (magnis_samples : List String) (arts : List MagnisArtifact) :
    List (String × String) :=
  arts.filterMap (fun a =>
    match a.sample_name with
    | none => none
    | some name =>
      if name ∈ magnis_samples then
        match a.container_position with
        | some pos => some (name, pos)
        | none => none
      else none)

/-- The sort of `artifacts_with_positions` by container position key. -/
def sort_artifacts (l : List (String × String)) : List (String × String) :=
  List.insertionSort pairPosLe l

/-- The assignment loop (src/magnis_xml_parse_RNA.py:1026-1033): enumerate
the sorted artifacts from 1 and attach the Magnis index label for
`(strip_number, position_index)`. -/
def assign_labels (strip_number : Int) (sorted : List (String × String)) :
    List (String × String × String) :=
  sorted.enum.map (fun e =>
    (e.2.1, e.2.2, get_magnis_index_label strip_number ((e.1 : Int) + 1)))

/-- `match_samples_and_add_index_labels` (src/magnis_xml_parse_RNA.py:902-1083),
restricted to its pure index-assignment core: parse the strip number from the
barcode (falling back to 1), collect the declared artifacts with positions,
sort them by container position, and assign sequential index labels.  Returns
`(sample_name, container_position, index_label)` triples in assignment
order. -/
def match_samples_and_add_index_labels (magnis_samples : List String)
    (arts : List MagnisArtifact) (index_strip_barcode : String) :
    List (String × String × String) :=
  assign_labels (effective_strip_number index_strip_barcode)
    (sort_artifacts (collect_artifacts magnis_samples arts))

/-- An HTTP response as the reagent-lot creation code observes it: a status
code, the response text (searched for known error phrases), and the `uri`
attribute of the parsed body when the body is a reagent-lot record. -/
structure HttpResponse where
  status : Nat
  text : String
  body_uri : Option String
deriving DecidableEq

/-- A reagent lot as listed by the external system: its URI and the
`lot-number` field of its detail record. -/
structure LotRecord where
  uri : String
  lot_number : String
deriving DecidableEq

/-- `find_existing_lot_by_all_lots` (src/magnis_xml_parse_RNA.py:306-374):
scan the full lot listing of the owning kit (`reagentlots?kitid=...`) and
return the URI of the first lot whose detail record carries the wanted lot
number.  (The detail fetches are assumed to succeed; a failed fetch only
skips that lot in the source.) -/
def find_existing_lot_by_all_lots (all_lots : List LotRecord) (lot_number : String) :
    Option String :=
  (all_lots.find? (fun l => l.lot_number == lot_number)).map (fun l => l.uri)

/-- `create_reagent_lot` (src/magnis_xml_parse_RNA.py:240-303) after its one
POST: status 200/201 returns the created record's URI; otherwise a response
whose text contains `'Duplicate lot'` triggers the full-listing fallback
lookup; a text containing `'Expiry date must be after current date'` is
terminal (`None`, no retry); any other failure is `None`. -/
def create_reagent_lot (resp : HttpResponse) (all_lots : List LotRecord)
    (lot_number : String) : Option String :=
  if resp.status = 200 ∨ resp.status = 201 then resp.body_uri
  else if strContainsSub resp.text "Duplicate lot" then
    find_existing_lot_by_all_lots all_lots lot_number
  else if strContainsSub resp.text "Expiry date must be after current date" then none
  else none

/-- The per-lot resolve-or-create flow of `process_reagent_kits`
(src/magnis_xml_parse_RNA.py:434-447): first `find_reagent_lot` (its result
is `lookup_result`); on a hit, return it without creating; on a miss, make
exactly one creation attempt via `create_reagent_lot`.  Returns the lot URI,
the recorded status string, and the number of creation POSTs issued. -/
def resolve_lot (lookup_result : Option String) (create_resp : HttpResponse)
    (all_lots : List LotRecord) (lot_number : String) :
    Option String × String × Nat :=
  match lookup_result with
  | some uri => (some uri, "lot_exists", 0)
  | none =>
    match create_reagent_lot create_resp all_lots lot_number with
    | some uri => (some uri, "lot_ready", 1)
    | none => (none, "lot_creation_failed", 1)

/-- One extracted file inside a bundle, as built by `interact_with_ab1_files`
(src/uploadSequencingFilesToProjects.py:125-142).  Byte contents are embedded
as `List Nat`. -/
structure FileInfo where
  filename : String
  base_filename : String
  extension : String
  file_data : List Nat
deriving DecidableEq

/-- Project ownership of an artifact, as returned by
`get_project_from_artifact`. -/
structure ProjectInfo where
  project_limsid : String
  project_name : String
  project_uri : String
deriving DecidableEq

/-- One entry of `unique_artifacts` in `match_artifacts_to_files`
(src/uploadSequencingFilesToProjects.py:263-316), restricted to the fields
the matching loop reads. -/
structure ArtifactEntity where
  input_limsid : String
  artifact_name : String
  project : Option ProjectInfo
deriving DecidableEq

/-- One element of the `matches` list built by `match_artifacts_to_files`
(src/uploadSequencingFilesToProjects.py:344-355). -/
structure MatchResult where
  input_limsid : String
  artifact_name : String
  matched_basename : Option String
  matched_files : List FileInfo
  project : Option ProjectInfo
deriving DecidableEq

/-- The inner scan of `match_artifacts_to_files`
(src/uploadSequencingFilesToProjects.py:337-342): walk the bundle map in its
iteration order and stop at the first basename that contains the artifact
name case-insensitively.  Nothing is ever removed from `files_by_basename`;
each artifact scans the full map. -/
def find_first_bundle (artifact_name : String)
    (files_by_basename : List (String × List FileInfo)) :
    Option (String × List FileInfo) :=
  files_by_basename.find? (fun b => strContainsSub (upperStr b.1) (upperStr artifact_name))

/-- `match_artifacts_to_files` (src/uploadSequencingFilesToProjects.py:263-373):
one `MatchResult` per unique artifact, holding the first bundle whose
basename contains the artifact name (case-insensitive), or no bundle.  The
`unmatched_basenames` set the source also maintains only feeds the log
report and is not part of the result. -/
def match_artifacts_to_files (entities : List ArtifactEntity)
    (files_by_basename : List (String × List FileInfo)) : List MatchResult :=
  entities.map (fun e =>
    match find_first_bundle e.artifact_name files_by_basename with
    | some b => ⟨e.input_limsid, e.artifact_name, some b.1, b.2, e.project⟩
    | none => ⟨e.input_limsid, e.artifact_name, none, [], e.project⟩)

/-- The list of bundle basenames referenced by a match list. -/
def matched_basenames (ms : List MatchResult) : List String :=
  ms.filterMap (fun m => m.matched_basename)

/-- The property claimed of `match_artifacts_to_files` output: the referenced
bundles are pairwise distinct (no bundle attached to two artifacts). -/
def matched_bundles_distinct (ms : List MatchResult) : Bool :=
  (matched_basenames ms).Nodup

/-- One file entry of a per-project manifest, as appended by
`group_matches_by_project` (src/uploadSequencingFilesToProjects.py:409-416):
the file travels under its `base_filename`. -/
structure ProjFile where
  filename : String
  file_data : List Nat
  artifact_name : String
  input_limsid : String
deriving DecidableEq

/-- One per-project manifest. -/
structure ProjectGroup where
  project_name : String
  project_limsid : String
  project_uri : String
  files : List ProjFile
deriving DecidableEq

/-- A match is kept by `group_matches_by_project` iff it has a non-empty
matched file list and a resolved project
(src/uploadSequencingFilesToProjects.py:392-394). -/
def keepMatch (m : MatchResult) : Bool :=
  !m.matched_files.isEmpty && m.project.isSome

/-- The project key of a match, when it has one. -/
def pidOf (m : MatchResult) : Option String :=
  m.project.map (fun p => p.project_limsid)

/-- The manifest entries a kept match contributes, in the order of its
matched file list. -/
def matchProjFiles (m : MatchResult) : List ProjFile :=
  m.matched_files.map (fun fi =>
    ⟨fi.base_filename, fi.file_data, m.artifact_name, m.input_limsid⟩)

/-- Append files to the manifest stored under `k` (the first entry with that
key, mirroring Python dict update). -/
def updateGroupFiles : List (String × ProjectGroup) → String → List ProjFile →
    List (String × ProjectGroup)
  | [], _, _ => []
  | (k', g) :: rest, k, fs =>
    if k' == k then (k', ⟨g.project_name, g.project_limsid, g.project_uri, g.files ++ fs⟩) :: rest
    else (k', g) :: updateGroupFiles rest k fs

/-- Python `key in dict`. -/
def containsKey (acc : List (String × ProjectGroup)) (k : String) : Bool :=
  acc.any (fun e => e.1 == k)

/-- Python `dict[key]['files']`, `[]` when the key is absent. -/
def lookupFiles (k : String) (acc : List (String × ProjectGroup)) : List ProjFile :=
  match acc.find? (fun e => e.1 == k) with
  | some e => e.2.files
  | none => []

/-- One iteration of the `group_matches_by_project` loop
(src/uploadSequencingFilesToProjects.py:385-416): skip matches without files
or project; otherwise create the project's manifest on first sight (at the
end of the dict, i.e. in insertion order) and append the match's files. -/
def group_step (acc : List (String × ProjectGroup)) (m : MatchResult) :
    List (String × ProjectGroup) :=
  match m.project with
  | none => acc
  | some p =>
    if m.matched_files.isEmpty then acc
    else
      let acc' :=
        if containsKey acc p.project_limsid then acc
        else acc ++ [(p.project_limsid, ⟨p.project_name, p.project_limsid, p.project_uri, []⟩)]
      updateGroupFiles acc' p.project_limsid (matchProjFiles m)

/-- `group_matches_by_project` (src/uploadSequencingFilesToProjects.py:376-422
and the identical copy in src/attachZippedSequenceFiles.py:365-416). -/
def group_matches_by_project (ms : List MatchResult) :
    List (String × ProjectGroup) :=
  ms.foldl group_step []

/-- One entry written to a project archive by `zipfile.writestr`. -/
structure ZipEntry where
  name : String
  data : List Nat
deriving DecidableEq

/-- The archive entries for a manifest's file list
(src/uploadSequencingFilesToProjects.py:443-449): every file is written
under `file_info['filename']`, which `group_matches_by_project` set to the
file's `base_filename` — no directory structure survives. -/
def zip_entries (files : List ProjFile) : List ZipEntry :=
  files.map (fun f => ⟨f.filename, f.file_data⟩)

/-- One created project archive. -/
structure ZipInfo where
  project_name : String
  project_limsid : String
  project_uri : String
  zip_filename : String
  entries : List ZipEntry
  file_count : Nat
deriving DecidableEq

/-- `create_project_zip_files` (src/uploadSequencingFilesToProjects.py:425-467):
one in-memory archive per manifest, keyed by project LIMS id. -/
def create_project_zip_files (projects : List (String × ProjectGroup)) :
    List (String × ZipInfo) :=
  projects.map (fun e =>
    (e.1, ⟨e.2.project_name, e.1, e.2.project_uri,
           e.2.project_name ++ "_sequencing_files.zip",
           zip_entries e.2.files, e.2.files.length⟩))

/-- A successfully uploaded archive record
(src/uploadSequencingFilesToProjects.py:683-691). -/
structure UploadedZip where
  project_name : String
  project_limsid : String
  project_uri : String
  zip_filename : String
  file_limsid : String
  file_uri : String
  file_count : Nat
deriving DecidableEq

/-- `upload_project_zips` (src/uploadSequencingFilesToProjects.py:654-701):
attempt one upload per archive; the external outcome per project is passed as
`upload_result` (the `(file_limsid, file_uri)` pair on success).  Failed
uploads are logged and dropped. -/
def upload_project_zips (upload_result : String → Option (String × String))
    (project_zips : List (String × ZipInfo)) : List UploadedZip :=
  project_zips.filterMap (fun e =>
    (upload_result e.1).map (fun r =>
      ⟨e.2.project_name, e.1, e.2.project_uri, e.2.zip_filename, r.1, r.2, e.2.file_count⟩))

/-- A record of a file published to LabLink
(src/uploadSequencingFilesToProjects.py:845-851). -/
structure PublishedFile where
  project_name : String
  project_limsid : String
  file_limsid : String
  zip_filename : String
  file_count : Nat
deriving DecidableEq

/-- `publish_files_to_lablink` (src/uploadSequencingFilesToProjects.py:704-870):
attempt to publish each uploaded archive; `publish_ok` is the external
verdict (the response carried `is-published == 'true'`).  Failures are
logged and dropped. -/
def publish_files_to_lablink (publish_ok : String → Bool)
    (uploaded : List UploadedZip) : List PublishedFile :=
  (uploaded.filter (fun u => publish_ok u.file_limsid)).map (fun u =>
    ⟨u.project_name, u.project_limsid, u.file_limsid, u.zip_filename, u.file_count⟩)

/-- The archives produced by one invocation of the packaging pipeline
(src/uploadSequencingFilesToProjects.py:1091-1104). -/
def pipeline_zips (ms : List MatchResult) : List (String × ZipInfo) :=
  create_project_zip_files (group_matches_by_project ms)

/-- The archives produced by two successive invocations of `main` on the same
input: the source consults no cross-run state (there is no per-manifest
status record anywhere in the repository), so the second run recomputes and
re-creates every archive. -/
def pipeline_zips_two_runs (ms : List MatchResult) : List (String × ZipInfo) :=
  pipeline_zips ms ++ pipeline_zips ms

/-- Python `f.endswith('/')`. -/
def endsWithSlash (f : String) : Bool :=
  match f.data.getLast? with
  | some c => c = '/'
  | none => false

/-- File filter of `interact_with_ab1_files`
(src/uploadSequencingFilesToProjects.py:115-118): drop directory entries and
macOS metadata. -/
def keepZipName (f : String) : Bool :=
  !endsWithSlash f && !(strContainsSub f "__MACOSX")

/-- Python `os.path.basename`: the suffix after the last `'/'`. -/
def pyBasename (f : String) : String :=
  String.mk ((splitOnChar '/' f.data).getLastD f.data)

/-- Python `os.path.splitext` on a path without separators: split at the last
dot unless every character before it is a dot. -/
def pySplitextL (cs : List Char) : List Char × List Char :=
  match (cs.reverse.dropWhile (fun c => c ≠ '.')) with
  | [] => (cs, [])
  | _ :: stem =>
    if stem.reverse.all (fun c => c = '.') then (cs, [])
    else (stem.reverse, List.replicate 1 '.' ++ (cs.reverse.takeWhile (fun c => c ≠ '.')).reverse)

/-- The bundle key of a zip member: strip the directory prefix, then the
extension (src/uploadSequencingFilesToProjects.py:130-131). -/
def bundleKey (f : String) : String :=
  String.mk (pySplitextL (pyBasename f).data).1

/-- The extension recorded for a zip member. -/
def bundleExt (f : String) : String :=
  String.mk (pySplitextL (pyBasename f).data).2

/-- dict-with-list-append: `d.setdefault(k, []).append(v)` on an insertion
ordered association list. -/
def addToKey : List (String × List FileInfo) → String → FileInfo →
    List (String × List FileInfo)
  | [], k, v => [(k, [v])]
  | (k', vs) :: rest, k, v =>
    if k' == k then (k', vs ++ [v]) :: rest
    else (k', vs) :: addToKey rest k v

/-- `interact_with_ab1_files` (src/uploadSequencingFilesToProjects.py:108-155):
group the surviving zip members by `bundleKey`, in first-seen order. -/
def interact_with_ab1_files (files : List (String × List Nat)) :
    List (String × List FileInfo) :=
  (files.filter (fun f => keepZipName f.1)).foldl
    (fun acc f =>
      addToKey acc (bundleKey f.1) ⟨f.1, pyBasename f.1, bundleExt f.1, f.2⟩)
    []

/-- Python `dict[key]` on the bundle map, `[]` when absent. -/
def lookupBundle (k : String) (acc : List (String × List FileInfo)) : List FileInfo :=
  match acc.find? (fun e => e.1 == k) with
  | some e => e.2
  | none => []

/-- A container position parses as `ROW:int-COLUMN` (the success condition of
`parse_position`). -/
def parse_ok (pos : String) : Bool :=
  match splitOnChar ':' pos.data with
  | [_, c] => (pyIntL c).isSome
  | _ => false

/-- The property the specification claims of the position sort: no coordinate
that fails to parse ever precedes a validly parsed coordinate. -/
def no_valid_after_unparseable : List String → Bool
  | [] => true
  | x :: xs =>
    (parse_ok x || xs.all (fun y => !parse_ok y)) && no_valid_after_unparseable xs

/-- The value of the barcode segment after the final `'-'` when it parses as
an integer in 1..24 (the specification's notion of a valid trailing
segment). -/
def trailing_strip_value (b : String) : Option Int :=
  match pyIntL ((splitOnChar '-' b.data).getLastD []) with
  | some n => if 1 ≤ n ∧ n ≤ 24 then some n else none
  | none => none

/-- C2: for ordinals 1..24 and slots 1..8 the embedded code numbers are
pairwise distinct (192 values, no collisions) and block-contiguous: the
number for `(o, 8)` plus 1 is the number for `(o+1, 1)` whenever `o < 24`,
so each ordinal's 8 codes form a contiguous block and blocks of distinct
ordinals do not overlap; the label embeds exactly this number. -/
theorem magnis_codes_distinct_and_contiguous :
    (∀ o₁ s₁ o₂ s₂ : Int, 1 ≤ o₁ → o₁ ≤ 24 → 1 ≤ s₁ → s₁ ≤ 8 →
        1 ≤ o₂ → o₂ ≤ 24 → 1 ≤ s₂ → s₂ ≤ 8 →
        get_magnis_index_number o₁ s₁ = get_magnis_index_number o₂ s₂ →
        o₁ = o₂ ∧ s₁ = s₂) ∧
    (∀ o : Int, 1 ≤ o → o < 24 →
        get_magnis_index_number o 8 + 1 = get_magnis_index_number (o + 1) 1) ∧
    (∀ o s : Int,
        get_magnis_index_label o s = "Magnis_" ++ toString (get_magnis_index_number o s)) := by
  refine ⟨?_, ?_, ?_⟩
  · intro o₁ s₁ o₂ s₂ h1 h2 h3 h4 h5 h6 h7 h8 h
    simp only [get_magnis_index_number] at h
    split_ifs at h <;> omega
  · intro o h1 h2
    simp only [get_magnis_index_number]
    split_ifs <;> omega
  · intro o s
    rfl

/-- Witness for C2 at concrete inputs: ordinal 2 slot 8 meets ordinal 3
slot 1, and the number embedded for strip 5 slot 1 is the label's 33. -/
theorem magnis_codes_distinct_and_contiguous_witness :
    ((2 : Int) = 2 ∧ (8 : Int) = 8) ∧
    get_magnis_index_number 2 8 + 1 = get_magnis_index_number 3 1 ∧
    get_magnis_index_label 5 1 = "Magnis_" ++ toString (get_magnis_index_number 5 1) :=
  ⟨magnis_codes_distinct_and_contiguous.1 2 8 2 8 (by decide) (by decide) (by decide)
      (by decide) (by decide) (by decide) (by decide) (by decide) rfl,
   magnis_codes_distinct_and_contiguous.2.1 2 (by decide) (by decide),
   magnis_codes_distinct_and_contiguous.2.2 5 1⟩

/-- C7: `convert_mmyy_to_date` maps a numeric `MMYY` string to the last
calendar day of that month in year `2000+YY` (variable month lengths,
leap-year February included: `"0226"` gives `2026-02-28`, `"0224"` gives
`2024-02-29`), and returns `none` for any input of wrong length, with a
field `int` cannot parse, or with a month outside 1..12 — never a guessed
date. -/
theorem convert_mmyy_spec :
    convert_mmyy_to_date "0226" = some "2026-02-28" ∧
    convert_mmyy_to_date "0224" = some "2024-02-29" ∧
    (∀ s : String, s.length ≠ 4 → convert_mmyy_to_date s = none) ∧
    (∀ s : String, pyIntL (s.data.take 2) = none ∨ pyIntL (s.data.drop 2) = none →
        convert_mmyy_to_date s = none) ∧
    (∀ s : String, ∀ m : Int, pyIntL (s.data.take 2) = some m → ¬(1 ≤ m ∧ m ≤ 12) →
        convert_mmyy_to_date s = none) ∧
    (∀ s : String, ∀ m y : Int, s.length = 4 →
        pyIntL (s.data.take 2) = some m → pyIntL (s.data.drop 2) = some y →
        1 ≤ m → m ≤ 12 →
        convert_mmyy_to_date s =
          some (toString (y + 2000) ++ "-" ++ pad2 m ++ "-" ++
                pad2 (monthLength (y + 2000) m))) ∧
    (∀ y : Int, monthLength y 2 = if isLeapYear y then 29 else 28) := by
  refine ⟨by decide, by decide, ?_, ?_, ?_, ?_, ?_⟩
  · intro s hs
    simp only [convert_mmyy_to_date, if_pos hs]
  · intro s hs
    simp only [convert_mmyy_to_date]
    split_ifs
    · rfl
    · rcases hs with h | h
      · simp [h]
      · rw [h]
        cases hother : pyIntL (s.data.take 2) <;> simp
  · intro s m hm hrange
    simp only [convert_mmyy_to_date]
    split_ifs
    · rfl
    · rw [hm]
      cases hy : pyIntL (s.data.drop 2) <;> simp [hrange]
  · intro s m y hlen hm hy h1 h2
    simp only [convert_mmyy_to_date]
    rw [if_neg (by simp [hlen]), hm, hy]
    simp [h1, h2]
  · intro y
    simp [monthLength]

/-- Witness for C7 at concrete inputs: wrong length, non-numeric month,
month out of range, and a valid April 2026 input. -/
theorem convert_mmyy_spec_witness :
    convert_mmyy_to_date "026" = none ∧
    convert_mmyy_to_date "xx26" = none ∧
    convert_mmyy_to_date "1326" = none ∧
    convert_mmyy_to_date "0426" =
      some (toString ((26 : Int) + 2000) ++ "-" ++ pad2 4 ++ "-" ++
            pad2 (monthLength ((26 : Int) + 2000) 4)) :=
  ⟨convert_mmyy_spec.2.2.1 "026" (by decide),
   convert_mmyy_spec.2.2.2.1 "xx26" (Or.inl (by decide)),
   convert_mmyy_spec.2.2.2.2.1 "1326" 13 (by decide) (by decide),
   convert_mmyy_spec.2.2.2.2.2.1 "0426" 4 26 (by decide) (by decide) (by decide)
     (by decide) (by decide)⟩

/-- C6: `parse_index_strip_number` returns 5 on the sample barcode, `none`
(never an exception — the embedding is total) on `"garbage"`, on the empty
barcode, and on every barcode whose trailing segment after the final `'-'`
does not parse as an integer in 1..24; on a `none` result the caller falls
back to strip ordinal 1. -/
theorem parse_strip_spec :
    parse_index_strip_number "n0025191-683300068234680726-05" = some 5 ∧
    parse_index_strip_number "garbage" = none ∧
    parse_index_strip_number "" = none ∧
    (∀ b : String, trailing_strip_value b = none → parse_index_strip_number b = none) ∧
    (∀ b : String, parse_index_strip_number b = none → effective_strip_number b = 1) := by
  refine ⟨by decide, by decide, by decide, ?_, ?_⟩
  · intro b h
    simp only [trailing_strip_value] at h
    simp only [parse_index_strip_number]
    split_ifs
    · rfl
    · cases hp : pyIntL ((splitOnChar '-' b.data).getLastD []) with
      | none => simp
      | some n =>
        rw [hp] at h
        simpa using h
    · rfl
  · intro b h
    simp only [effective_strip_number, h, Option.getD_none]

/-- Witness for C6: the `"garbage"` barcode exercises both conditional
clauses. -/
theorem parse_strip_spec_witness :
    parse_index_strip_number "garbage" = none ∧ effective_strip_number "garbage" = 1 :=
  ⟨parse_strip_spec.2.2.2.1 "garbage" (by decide),
   parse_strip_spec.2.2.2.2 "garbage" (parse_strip_spec.2.2.2.1 "garbage" (by decide))⟩

/-- C4: the resolve-or-create flow returns a record found by the initial
lookup without any creation attempt; when the single creation attempt fails
with the `'Duplicate lot'` conflict signal it returns whatever the full
kit-lot listing yields (never creating a second lot); when it fails with the
terminal expired-expiry message it returns failure without retrying; and in
every case at most one creation POST is issued. -/
theorem resolve_lot_spec :
    (∀ (uri : String) (resp : HttpResponse) (lots : List LotRecord) (ln : String),
        resolve_lot (some uri) resp lots ln = (some uri, "lot_exists", 0)) ∧
    (∀ (resp : HttpResponse) (lots : List LotRecord) (ln : String),
        ¬(resp.status = 200 ∨ resp.status = 201) →
        strContainsSub resp.text "Duplicate lot" = true →
        (resolve_lot none resp lots ln).1 = find_existing_lot_by_all_lots lots ln ∧
        (resolve_lot none resp lots ln).2.2 = 1) ∧
    (∀ (resp : HttpResponse) (lots : List LotRecord) (ln : String),
        ¬(resp.status = 200 ∨ resp.status = 201) →
        strContainsSub resp.text "Duplicate lot" = false →
        strContainsSub resp.text "Expiry date must be after current date" = true →
        resolve_lot none resp lots ln = (none, "lot_creation_failed", 1)) ∧
    (∀ (lk : Option String) (resp : HttpResponse) (lots : List LotRecord) (ln : String),
        (resolve_lot lk resp lots ln).2.2 ≤ 1) := by
  refine ⟨?_, ?_, ?_, ?_⟩
  · intro uri resp lots ln
    rfl
  · intro resp lots ln hst hdup
    simp only [resolve_lot, create_reagent_lot, if_neg hst, hdup, if_pos]
    cases hf : find_existing_lot_by_all_lots lots ln <;> simp
  · intro resp lots ln hst hdup hexp
    simp [resolve_lot, create_reagent_lot, if_neg hst, hdup, hexp]
  · intro lk resp lots ln
    cases lk with
    | some uri => simp [resolve_lot]
    | none =>
      cases h : create_reagent_lot resp lots ln <;> simp [resolve_lot, h]

/-- Witness for C4 at concrete responses: a duplicate-conflict response that
recovers the existing lot from the full listing, and a terminal
expired-expiry response. -/
theorem resolve_lot_spec_witness :
    ((resolve_lot none ⟨400, "xx Duplicate lot yy", none⟩ [⟨"u9", "L7"⟩] "L7").1 =
        find_existing_lot_by_all_lots [⟨"u9", "L7"⟩] "L7" ∧
      (resolve_lot none ⟨400, "xx Duplicate lot yy", none⟩ [⟨"u9", "L7"⟩] "L7").2.2 = 1) ∧
    resolve_lot none ⟨400, "Expiry date must be after current date", none⟩ [] "L7" =
      (none, "lot_creation_failed", 1) :=
  ⟨resolve_lot_spec.2.1 ⟨400, "xx Duplicate lot yy", none⟩ [⟨"u9", "L7"⟩] "L7"
      (by decide) (by decide),
   resolve_lot_spec.2.2.1 ⟨400, "Expiry date must be after current date", none⟩ [] "L7"
      (by decide) (by decide) (by decide)⟩

theorem charListLt_trans : ∀ {a b c : List Char},
    charListLt a b = true → charListLt b c = true → charListLt a c = true := by
  intro a
  induction a with
  | nil =>
    intro b c hab hbc
    cases c with
    | nil => cases b <;> simp [charListLt] at hbc
    | cons z zs => simp [charListLt]
  | cons x xs ih =>
    intro b c hab hbc
    cases b with
    | nil => simp [charListLt] at hab
    | cons y ys =>
      cases c with
      | nil => simp [charListLt] at hbc
      | cons z zs =>
        simp only [charListLt] at hab hbc ⊢
        by_cases hxy : x = y
        · subst hxy
          rw [if_pos rfl] at hab
          by_cases hxz : x = z
          · subst hxz
            rw [if_pos rfl] at hbc ⊢
            exact ih hab hbc
          · rw [if_neg hxz] at hbc ⊢
            exact hbc
        · rw [if_neg hxy] at hab
          replace hab : x < y := of_decide_eq_true hab
          by_cases hyz : y = z
          · subst hyz
            rw [if_neg hxy]
            exact decide_eq_true hab
          · rw [if_neg hyz] at hbc
            replace hbc : y < z := of_decide_eq_true hbc
            have hxz : x < z := lt_trans hab hbc
            rw [if_neg (ne_of_lt hxz)]
            exact decide_eq_true hxz

theorem charListLt_total : ∀ a b : List Char,
    charListLt a b = true ∨ charListLt b a = true ∨ a = b := by
  intro a
  induction a with
  | nil =>
    intro b
    cases b with
    | nil => right; right; rfl
    | cons y ys => left; simp [charListLt]
  | cons x xs ih =>
    intro b
    cases b with
    | nil => right; left; simp [charListLt]
    | cons y ys =>
      by_cases hxy : x = y
      · subst hxy
        rcases ih ys with h | h | h
        · left; simp [charListLt, h]
        · right; left; simp [charListLt, h]
        · right; right; rw [h]
      · rcases lt_trichotomy x y with h | h | h
        · left; simp [charListLt, hxy, h]
        · exact absurd h hxy
        · right; left
          have hyx : y ≠ x := fun hh => hxy hh.symm
          simp [charListLt, hyx, h]

theorem string_eq_of_data_eq {s t : String} (h : s.data = t.data) : s = t := by
  cases s
  cases t
  exact congrArg String.mk h

theorem keyLeB_total (p q : String × Int) : keyLeB p q = true ∨ keyLeB q p = true := by
  rcases charListLt_total p.1.data q.1.data with h | h | h
  · left; simp [keyLeB, h]
  · right; simp [keyLeB, h]
  · have hs : p.1 = q.1 := string_eq_of_data_eq h
    rcases Int.le_total p.2 q.2 with hle | hle
    · left; simp [keyLeB, hs, hle]
    · right; simp [keyLeB, hs.symm, hle]

theorem keyLeB_trans {p q r : String × Int}
    (h1 : keyLeB p q = true) (h2 : keyLeB q r = true) : keyLeB p r = true := by
  simp only [keyLeB, Bool.or_eq_true, Bool.and_eq_true, beq_iff_eq,
    decide_eq_true_eq] at h1 h2 ⊢
  rcases h1 with h1 | ⟨he1, hle1⟩
  · rcases h2 with h2 | ⟨he2, hle2⟩
    · exact Or.inl (charListLt_trans h1 h2)
    · left; rw [← he2]; exact h1
  · rcases h2 with h2 | ⟨he2, hle2⟩
    · left; rw [he1]; exact h2
    · exact Or.inr ⟨he1.trans he2, le_trans hle1 hle2⟩

theorem parse_pos_sentinel (pos : String) (h : parse_ok pos = false) :
    parse_position pos = ("Z", 99) := by
  unfold parse_ok at h
  unfold parse_position
  cases hs : splitOnChar ':' pos.data with
  | nil => rfl
  | cons a t =>
    cases t with
    | nil => rfl
    | cons b t2 =>
      cases t2 with
      | nil =>
        rw [hs] at h
        change (pyIntL b).isSome = false at h
        cases hp : pyIntL b with
        | none => simp [hp]
        | some v => rw [hp] at h; simp at h
      | cons c t3 => rfl

theorem filter_orderedInsert {α : Type} (r : α → α → Prop) [DecidableRel r]
    (p : α → Bool) (a : α) (h : ∀ y, p a = true → p y = true → r a y) :
    ∀ l : List α, (List.orderedInsert r a l).filter p =
      if p a then a :: l.filter p else l.filter p := by
  intro l
  induction l with
  | nil => cases hpa : p a <;> simp [List.orderedInsert, List.filter_cons, hpa]
  | cons b l ih =>
    simp only [List.orderedInsert]
    by_cases hr : r a b
    · rw [if_pos hr]
      cases hpa : p a <;> simp [List.filter_cons, hpa]
    · rw [if_neg hr]
      cases hpb : p b
      · cases hpa : p a <;> simp [List.filter_cons, hpb, hpa, ih]
      · cases hpa : p a
        · simp [List.filter_cons, hpb, hpa, ih]
        · exact absurd (h b hpa hpb) hr

theorem filter_insertionSort {α : Type} (r : α → α → Prop) [DecidableRel r]
    (p : α → Bool) (h : ∀ x y, p x = true → p y = true → r x y) :
    ∀ l : List α, (List.insertionSort r l).filter p = l.filter p := by
  intro l
  induction l with
  | nil => rfl
  | cons a l ih =>
    simp only [List.insertionSort]
    rw [filter_orderedInsert r p a (fun y hpa hpy => h a y hpa hpy)]
    cases hpa : p a <;> simp [List.filter_cons, hpa, ih]

/-- C5 (amended): every coordinate that fails to parse is assigned the fixed
sentinel key `('Z', 99)` — not a key beyond all valid coordinates — so after
sorting, everything that follows an unparseable coordinate has key at least
`('Z', 99)` (in particular all coordinates with rows `A`..`Y` sort before
every unparseable one), unparseable coordinates keep their original relative
order, and the specification's example list sorts exactly as stated. -/
theorem sort_positions_sentinel (l : List String) :
    (∀ pos : String, parse_ok pos = false → parse_position pos = ("Z", 99)) ∧
    (sort_positions l).Pairwise
      (fun x y => parse_ok x = false → keyLeB ("Z", 99) (parse_position y) = true) ∧
    (sort_positions l).filter (fun s => !parse_ok s) = l.filter (fun s => !parse_ok s) ∧
    sort_positions ["None", "A:2", "A:1", "B:1"] = ["A:1", "A:2", "B:1", "None"] := by
  refine ⟨fun pos h => parse_pos_sentinel pos h, ?_, ?_, by decide⟩
  · haveI : IsTotal String posLe := ⟨fun a b => keyLeB_total _ _⟩
    haveI : IsTrans String posLe := ⟨fun _ _ _ h1 h2 => keyLeB_trans h1 h2⟩
    have hs := List.sorted_insertionSort posLe l
    exact hs.imp (fun {x y} hxy => fun hpo => by
      rw [← parse_pos_sentinel x hpo]; exact hxy)
  · apply filter_insertionSort
    intro x y hx hy
    have hx2 : parse_ok x = false := by simpa using hx
    have hy2 : parse_ok y = false := by simpa using hy
    unfold posLe
    rw [parse_pos_sentinel x hx2, parse_pos_sentinel y hy2]
    rfl

/-- Witness for C5 (amended) at a concrete input: the unparseable coordinate
`"garbage"` receives the sentinel key. -/
theorem sort_positions_sentinel_witness : parse_position "garbage" = ("Z", 99) :=
  (sort_positions_sentinel []).1 "garbage" (by decide)

/-- C5 counterexample: for the input `["Z:100", "garbage"]` the sort places
the unparseable coordinate `"garbage"` (sentinel key `('Z', 99)`) BEFORE the
validly parsed coordinate `"Z:100"` (key `('Z', 100)`), so unparseable
coordinates do not always sort after all validly parsed ones. -/
theorem sort_positions_counterexample :
    no_valid_after_unparseable (sort_positions ["Z:100", "garbage"]) = false ∧
    parse_ok "Z:100" = true ∧ parse_ok "garbage" = false ∧
    sort_positions ["Z:100", "garbage"] = ["garbage", "Z:100"] := by decide

theorem perm_pair_cases {α : Type} [DecidableEq α] {y z u v : α}
    (h : [y, z].Perm [u, v]) : (y = u ∧ z = v) ∨ (y = v ∧ z = u) := by
  have hy : y ∈ [u, v] := h.mem_iff.mp (by simp)
  simp only [List.mem_cons, List.mem_singleton, List.not_mem_nil, or_false] at hy
  rcases hy with rfl | rfl
  · left
    refine ⟨rfl, ?_⟩
    have ht : [z].Perm [v] := h.cons_inv
    have hz : z ∈ [v] := ht.mem_iff.mp (by simp)
    simpa using hz
  · have hz : z ∈ [u, y] := h.mem_iff.mp (by simp)
    simp only [List.mem_cons, List.mem_singleton, List.not_mem_nil, or_false] at hz
    rcases hz with rfl | rfl
    · right; exact ⟨rfl, rfl⟩
    · have huz : u = z := by
        by_contra hne
        have hc := h.count_eq z
        simp [List.count_cons, hne] at hc
      left
      exact ⟨huz.symm, rfl⟩

theorem perm_triple_cases {α : Type} [DecidableEq α] {l : List α} {a b c : α}
    (hab : a ≠ b) (hac : a ≠ c) (hbc : b ≠ c) (h : l.Perm [a, b, c]) :
    l = [a, b, c] ∨ l = [a, c, b] ∨ l = [b, a, c] ∨ l = [b, c, a] ∨
      l = [c, a, b] ∨ l = [c, b, a] := by
  obtain ⟨x, y, z, rfl⟩ : ∃ x y z, l = [x, y, z] := by
    have hlen := h.length_eq
    match l, hlen with
    | [x, y, z], _ => exact ⟨x, y, z, rfl⟩
  have hx : x ∈ [a, b, c] := h.mem_iff.mp (by simp)
  simp only [List.mem_cons, List.mem_singleton, List.not_mem_nil, or_false] at hx
  rcases hx with rfl | rfl | rfl
  · have ht : [y, z].Perm [b, c] := h.cons_inv
    rcases perm_pair_cases ht with ⟨rfl, rfl⟩ | ⟨rfl, rfl⟩
    · exact Or.inl rfl
    · exact Or.inr (Or.inl rfl)
  · have hmem : x ∈ [a, x, c] := by simp
    have ht : [y, z].Perm ([a, x, c].erase x) := (List.cons_perm_iff_perm_erase.mp h).2
    have he : [a, x, c].erase x = [a, c] := by
      rw [List.erase_cons_tail, List.erase_cons_head]
      simp [hab]
    rw [he] at ht
    rcases perm_pair_cases ht with ⟨rfl, rfl⟩ | ⟨rfl, rfl⟩
    · exact Or.inr (Or.inr (Or.inl rfl))
    · exact Or.inr (Or.inr (Or.inr (Or.inl rfl)))
  · have ht : [y, z].Perm ([a, b, x].erase x) := (List.cons_perm_iff_perm_erase.mp h).2
    have he : [a, b, x].erase x = [a, b] := by
      rw [List.erase_cons_tail, List.erase_cons_tail, List.erase_cons_head]
      · simp [hbc]
      · simp [hac]
    rw [he] at ht
    rcases perm_pair_cases ht with ⟨rfl, rfl⟩ | ⟨rfl, rfl⟩
    · exact Or.inr (Or.inr (Or.inr (Or.inr (Or.inl rfl))))
    · exact Or.inr (Or.inr (Or.inr (Or.inr (Or.inr rfl))))

/-- C3: with three declared entities `Sample1`, `Sample2`, `Sample3` at
container coordinates `A:1`, `A:2`, `A:3` and a carrier barcode whose parsed
ordinal is 5, the assignment yields the logical codes embedding 33, 34 and 35
for those entities in that coordinate order, whatever the enumeration order
of the input artifacts. -/
theorem magnis_end_to_end (arts : List MagnisArtifact) (barcode : String)
    (h5 : parse_index_strip_number barcode = some 5)
    (hperm : arts.Perm
      [⟨some "Sample1", some "A:1"⟩, ⟨some "Sample2", some "A:2"⟩,
       ⟨some "Sample3", some "A:3"⟩]) :
    match_samples_and_add_index_labels ["Sample1", "Sample2", "Sample3"] arts barcode =
      [("Sample1", "A:1", "Magnis_33"), ("Sample2", "A:2", "Magnis_34"),
       ("Sample3", "A:3", "Magnis_35")] := by
  have hb : effective_strip_number barcode = 5 := by
    simp [effective_strip_number, h5]
  unfold match_samples_and_add_index_labels
  rw [hb]
  rcases perm_triple_cases (by decide) (by decide) (by decide) hperm with
    h | h | h | h | h | h <;> rw [h] <;> decide

/-- Witness for C3 at the sample barcode and the identity enumeration
order. -/
theorem magnis_end_to_end_witness :
    match_samples_and_add_index_labels ["Sample1", "Sample2", "Sample3"]
      [⟨some "Sample1", some "A:1"⟩, ⟨some "Sample2", some "A:2"⟩,
       ⟨some "Sample3", some "A:3"⟩]
      "n0025191-683300068234680726-05" =
      [("Sample1", "A:1", "Magnis_33"), ("Sample2", "A:2", "Magnis_34"),
       ("Sample3", "A:3", "Magnis_35")] :=
  magnis_end_to_end _ _ (by decide) (List.Perm.refl _)

/-- C1 counterexample: nothing removes a claimed bundle from consideration,
so with entities named `SAMPLE` and `SAMPLE1` and the single bundle
`SAMPLE1_A` (whose basename contains both names case-insensitively), both
entities are assigned the same bundle and the output references a repeated
bundle — the claim's pairwise-distinctness fails. -/
theorem match_shares_bundle_counterexample :
    matched_bundles_distinct
      (match_artifacts_to_files
        [⟨"L1", "SAMPLE", none⟩, ⟨"L2", "SAMPLE1", none⟩]
        [("SAMPLE1_A", [⟨"SAMPLE1_A.ab1", "SAMPLE1_A.ab1", ".ab1", []⟩])]) = false ∧
    (match_artifacts_to_files
        [⟨"L1", "SAMPLE", none⟩, ⟨"L2", "SAMPLE1", none⟩]
        [("SAMPLE1_A", [⟨"SAMPLE1_A.ab1", "SAMPLE1_A.ab1", ".ab1", []⟩])]).map
        (fun m => m.matched_basename) =
      [some "SAMPLE1_A", some "SAMPLE1_A"] ∧
    (⟨"L1", "SAMPLE", none⟩ : ArtifactEntity) ≠ ⟨"L2", "SAMPLE1", none⟩ := by decide

/-- C1 (amended): the matcher scans the full bundle map for every entity and
never removes a claimed bundle (only the unmatched-report set shrinks), so
first-claimed-wins does not hold in general; the matched bundles are
pairwise distinct exactly under the extra assumption that no bundle's
basename contains the names of two different entity positions. -/
theorem match_no_shared_bundle (es : List ArtifactEntity)
    (bs : List (String × List FileInfo))
    (h : ∀ b ∈ bs, ∀ i j : Fin es.length,
        strContainsSub (upperStr b.1) (upperStr (es.get i).artifact_name) = true →
        strContainsSub (upperStr b.1) (upperStr (es.get j).artifact_name) = true →
        i = j) :
    ∀ p q : Fin (match_artifacts_to_files es bs).length, p.val ≠ q.val →
      ∀ b1 b2 : String,
        ((match_artifacts_to_files es bs).get p).matched_basename = some b1 →
        ((match_artifacts_to_files es bs).get q).matched_basename = some b2 →
        b1 ≠ b2 := by
  have hlen : (match_artifacts_to_files es bs).length = es.length := by
    simp [match_artifacts_to_files]
  have key : ∀ r : Fin (match_artifacts_to_files es bs).length, ∀ bb : String,
      ((match_artifacts_to_files es bs).get r).matched_basename = some bb →
      ∃ bd ∈ bs, bd.1 = bb ∧
        strContainsSub (upperStr bd.1)
          (upperStr ((es.get ⟨r.val, hlen ▸ r.isLt⟩).artifact_name)) = true := by
    intro r bb hr
    rw [List.get_eq_getElem] at hr
    simp only [match_artifacts_to_files, List.getElem_map] at hr
    cases hf : find_first_bundle
        (es.get ⟨r.val, hlen ▸ r.isLt⟩).artifact_name bs with
    | none =>
      rw [List.get_eq_getElem] at hf
      rw [hf] at hr
      simp at hr
    | some bd =>
      rw [List.get_eq_getElem] at hf
      rw [hf] at hr
      simp only at hr
      have hbb : bd.1 = bb := by simpa using hr
      simp only [find_first_bundle] at hf
      have hmem := List.mem_of_find?_eq_some hf
      have hpred := List.find?_some hf
      refine ⟨bd, hmem, hbb, ?_⟩
      rw [List.get_eq_getElem]
      exact hpred
  intro p q hpq b1 b2 h1 h2 heq
  obtain ⟨bd1, hm1, hb1, hc1⟩ := key p b1 h1
  obtain ⟨bd2, hm2, hb2, hc2⟩ := key q b2 h2
  have hdd : bd2.1 = bd1.1 := by rw [hb1, hb2, heq]
  rw [hdd] at hc2
  have hf := h bd1 hm1 ⟨p.val, hlen ▸ p.isLt⟩ ⟨q.val, hlen ▸ q.isLt⟩ hc1 hc2
  simp only [Fin.mk.injEq] at hf
  exact hpq hf

/-- Witness for C1 (amended): two entities whose names single out different
bundles receive distinct bundles. -/
theorem match_no_shared_bundle_witness : ("SAMPLE1_F" : String) ≠ "SAMPLE2_F" :=
  match_no_shared_bundle
    [⟨"L1", "SAMPLE1", none⟩, ⟨"L2", "SAMPLE2", none⟩]
    [("SAMPLE1_F", [⟨"SAMPLE1_F.ab1", "SAMPLE1_F.ab1", ".ab1", []⟩]),
     ("SAMPLE2_F", [⟨"SAMPLE2_F.ab1", "SAMPLE2_F.ab1", ".ab1", []⟩])]
    (by decide) ⟨0, by decide⟩ ⟨1, by decide⟩ (by decide) "SAMPLE1_F" "SAMPLE2_F"
    (by decide) (by decide)

theorem lookupFiles_cons_pos (k1 : String) (g : ProjectGroup)
    (acc : List (String × ProjectGroup)) (k : String) (h : (k1 == k) = true) :
    lookupFiles k ((k1, g) :: acc) = g.files := by
  have hf : List.find? (fun e => e.1 == k) ((k1, g) :: acc) = some (k1, g) :=
    List.find?_cons_of_pos _ h
  simp [lookupFiles, hf]

theorem lookupFiles_cons_neg (k1 : String) (g : ProjectGroup)
    (acc : List (String × ProjectGroup)) (k : String) (h : (k1 == k) = false) :
    lookupFiles k ((k1, g) :: acc) = lookupFiles k acc := by
  have hf : List.find? (fun e => e.1 == k) ((k1, g) :: acc) =
      List.find? (fun e => e.1 == k) acc :=
    List.find?_cons_of_neg _ (by simp [h])
  simp [lookupFiles, hf]

theorem lookupFiles_update_self (k : String) (fs : List ProjFile) :
    ∀ acc : List (String × ProjectGroup), containsKey acc k = true →
      lookupFiles k (updateGroupFiles acc k fs) = lookupFiles k acc ++ fs := by
  intro acc
  induction acc with
  | nil => intro h; simp [containsKey] at h
  | cons e acc ih =>
    obtain ⟨k1, g⟩ := e
    intro h
    cases hek : (k1 == k) with
    | true =>
      simp only [updateGroupFiles]
      rw [if_pos hek, lookupFiles_cons_pos _ _ _ _ hek, lookupFiles_cons_pos _ _ _ _ hek]
    | false =>
      have hck : containsKey acc k = true := by
        simpa [containsKey, hek] using h
      simp only [updateGroupFiles]
      rw [if_neg (by simp [hek]), lookupFiles_cons_neg _ _ _ _ hek,
        lookupFiles_cons_neg _ _ _ _ hek, ih hck]

theorem lookupFiles_update_ne (k kq : String) (fs : List ProjFile) (h : kq ≠ k) :
    ∀ acc : List (String × ProjectGroup),
      lookupFiles kq (updateGroupFiles acc k fs) = lookupFiles kq acc := by
  intro acc
  induction acc with
  | nil => simp [updateGroupFiles]
  | cons e acc ih =>
    obtain ⟨k1, g⟩ := e
    cases hek : (k1 == k) with
    | true =>
      have hk1 : k1 = k := by simpa using hek
      have hq : (k1 == kq) = false := by
        subst hk1
        simp only [beq_eq_false_iff_ne]
        exact fun hh => h hh.symm
      simp only [updateGroupFiles]
      rw [if_pos hek, lookupFiles_cons_neg _ _ _ _ hq, lookupFiles_cons_neg _ _ _ _ hq]
    | false =>
      simp only [updateGroupFiles]
      rw [if_neg (by simp [hek])]
      cases heq : (k1 == kq) with
      | true =>
        rw [lookupFiles_cons_pos _ _ _ _ heq, lookupFiles_cons_pos _ _ _ _ heq]
      | false =>
        rw [lookupFiles_cons_neg _ _ _ _ heq, lookupFiles_cons_neg _ _ _ _ heq, ih]

theorem lookupFiles_nil_of_not_contains (k : String) :
    ∀ acc : List (String × ProjectGroup), containsKey acc k = false →
      lookupFiles k acc = [] := by
  intro acc
  induction acc with
  | nil => intro _; rfl
  | cons e acc ih =>
    obtain ⟨k1, g⟩ := e
    intro h
    have hek : (k1 == k) = false := by
      by_contra hc
      simp only [Bool.not_eq_false] at hc
      simp [containsKey, hc] at h
    have hck : containsKey acc k = false := by
      simpa [containsKey, hek] using h
    rw [lookupFiles_cons_neg _ _ _ _ hek, ih hck]

theorem lookupFiles_append_single (k kq : String) (g : ProjectGroup) :
    ∀ acc : List (String × ProjectGroup),
      lookupFiles kq (acc ++ [(k, g)]) =
        if containsKey acc kq = true then lookupFiles kq acc
        else if (k == kq) = true then g.files else [] := by
  intro acc
  induction acc with
  | nil =>
    simp only [List.nil_append, containsKey, List.any_nil]
    rw [if_neg (by simp)]
    cases hk : (k == kq) with
    | true => rw [if_pos rfl, lookupFiles_cons_pos _ _ _ _ hk]
    | false =>
      rw [if_neg (by simp [hk]), lookupFiles_cons_neg _ _ _ _ hk]
      rfl
  | cons e acc ih =>
    obtain ⟨k1, g1⟩ := e
    cases heq : (k1 == kq) with
    | true =>
      have hc : containsKey ((k1, g1) :: acc) kq = true := by simp [containsKey, heq]
      rw [List.cons_append, lookupFiles_cons_pos _ _ _ _ heq, if_pos hc,
        lookupFiles_cons_pos _ _ _ _ heq]
    | false =>
      have hc : containsKey ((k1, g1) :: acc) kq = containsKey acc kq := by
        simp [containsKey, heq]
      rw [List.cons_append, lookupFiles_cons_neg _ _ _ _ heq, ih, hc,
        lookupFiles_cons_neg _ _ _ _ heq]

theorem containsKey_update (k kq : String) (fs : List ProjFile) :
    ∀ acc : List (String × ProjectGroup),
      containsKey (updateGroupFiles acc k fs) kq = containsKey acc kq := by
  intro acc
  induction acc with
  | nil => simp [updateGroupFiles]
  | cons e acc ih =>
    obtain ⟨k1, g⟩ := e
    cases hek : (k1 == k) with
    | true =>
      simp only [updateGroupFiles]
      rw [if_pos hek]
      simp [containsKey]
    | false =>
      simp only [updateGroupFiles]
      rw [if_neg (by simp [hek])]
      simp only [containsKey, List.any_cons] at ih ⊢
      rw [ih]

theorem containsKey_append_single (k kq : String) (g : ProjectGroup)
    (acc : List (String × ProjectGroup)) :
    containsKey (acc ++ [(k, g)]) kq = (containsKey acc kq || (k == kq)) := by
  simp [containsKey]

theorem lookupFiles_group_fold :
    ∀ (ms : List MatchResult) (acc : List (String × ProjectGroup)) (k : String),
      lookupFiles k (ms.foldl group_step acc) =
        lookupFiles k acc ++
          (ms.filter (fun m => keepMatch m && (pidOf m == some k))).flatMap
            matchProjFiles := by
  intro ms
  induction ms with
  | nil => intro acc k; simp
  | cons m ms ih =>
    intro acc k
    rw [List.foldl_cons, ih]
    cases hproj : m.project with
    | none =>
      have hg : group_step acc m = acc := by simp [group_step, hproj]
      have hcond : (keepMatch m && (pidOf m == some k)) = false := by
        simp [keepMatch, hproj]
      rw [hg, List.filter_cons, if_neg (by simp [hcond])]
    | some p =>
      cases hemp : m.matched_files.isEmpty with
      | true =>
        have hg : group_step acc m = acc := by simp [group_step, hproj, hemp]
        have hcond : (keepMatch m && (pidOf m == some k)) = false := by
          simp [keepMatch, hemp]
        rw [hg, List.filter_cons, if_neg (by simp [hcond])]
      | false =>
        have hkeep : keepMatch m = true := by simp [keepMatch, hemp, hproj]
        have hg : group_step acc m =
            updateGroupFiles
              (if containsKey acc p.project_limsid = true then acc
               else acc ++
                 [(p.project_limsid,
                   ⟨p.project_name, p.project_limsid, p.project_uri, []⟩)])
              p.project_limsid (matchProjFiles m) := by
          simp [group_step, hproj, hemp]
        by_cases hpk : p.project_limsid = k
        · subst hpk
          have hcond : (keepMatch m && (pidOf m == some p.project_limsid)) = true := by
            simp [hkeep, pidOf, hproj]
          rw [List.filter_cons, if_pos hcond, List.flatMap_cons]
          by_cases hc : containsKey acc p.project_limsid = true
          · rw [hg, if_pos hc, lookupFiles_update_self _ _ _ hc, List.append_assoc]
          · have hcf : containsKey acc p.project_limsid = false := by
              simpa using hc
            have hc2 : containsKey
                (acc ++ [(p.project_limsid,
                  ⟨p.project_name, p.project_limsid, p.project_uri, []⟩)])
                p.project_limsid = true := by
              rw [containsKey_append_single]
              simp
            rw [hg, if_neg hc, lookupFiles_update_self _ _ _ hc2,
              lookupFiles_append_single, if_neg (by simp [hcf]), if_pos (by simp),
              lookupFiles_nil_of_not_contains _ _ hcf]
            simp
        · have hcond : (pidOf m == some k) = false := by
            simp [pidOf, hproj, hpk]
          rw [List.filter_cons, if_neg (by simp [hcond]), hg]
          have hne : k ≠ p.project_limsid := fun hh => hpk hh.symm
          rw [lookupFiles_update_ne _ _ _ hne]
          by_cases hc : containsKey acc p.project_limsid = true
          · rw [if_pos hc]
          · rw [if_neg hc, lookupFiles_append_single]
            by_cases hck : containsKey acc k = true
            · rw [if_pos hck]
            · have hckf : containsKey acc k = false := by simpa using hck
              rw [if_neg hck, if_neg (by simp [hpk]),
                lookupFiles_nil_of_not_contains _ _ hckf]

theorem containsKey_group_fold :
    ∀ (ms : List MatchResult) (acc : List (String × ProjectGroup)) (k : String),
      containsKey (ms.foldl group_step acc) k =
        (containsKey acc k || ms.any (fun m => keepMatch m && (pidOf m == some k))) := by
  intro ms
  induction ms with
  | nil => intro acc k; simp
  | cons m ms ih =>
    intro acc k
    rw [List.foldl_cons, ih, List.any_cons]
    cases hproj : m.project with
    | none =>
      have hg : group_step acc m = acc := by simp [group_step, hproj]
      have hcond : (keepMatch m && (pidOf m == some k)) = false := by
        simp [keepMatch, hproj]
      rw [hg, hcond]
      simp
    | some p =>
      cases hemp : m.matched_files.isEmpty with
      | true =>
        have hg : group_step acc m = acc := by simp [group_step, hproj, hemp]
        have hcond : (keepMatch m && (pidOf m == some k)) = false := by
          simp [keepMatch, hemp]
        rw [hg, hcond]
        simp
      | false =>
        have hkeep : keepMatch m = true := by simp [keepMatch, hemp, hproj]
        have hg : group_step acc m =
            updateGroupFiles
              (if containsKey acc p.project_limsid = true then acc
               else acc ++
                 [(p.project_limsid,
                   ⟨p.project_name, p.project_limsid, p.project_uri, []⟩)])
              p.project_limsid (matchProjFiles m) := by
          simp [group_step, hproj, hemp]
        rw [hg, containsKey_update]
        by_cases hpk : p.project_limsid = k
        · subst hpk
          have hcond : (keepMatch m && (pidOf m == some p.project_limsid)) = true := by
            simp [hkeep, pidOf, hproj]
          rw [hcond]
          by_cases hc : containsKey acc p.project_limsid = true
          · rw [if_pos hc, hc]
            simp
          · rw [if_neg hc, containsKey_append_single]
            simp
        · have hcond : (keepMatch m && (pidOf m == some k)) = false := by
            simp [pidOf, hproj, hpk]
          rw [hcond]
          by_cases hc : containsKey acc p.project_limsid = true
          · rw [if_pos hc]
            simp
          · rw [if_neg hc, containsKey_append_single]
            have hb : (p.project_limsid == k) = false := by
              simp only [beq_eq_false_iff_ne]
              exact hpk
            rw [hb]
            simp

/-- C8: a project's manifest holds exactly the file entries of the matches
that have both a non-empty matched file list and a resolved project whose
LIMS id is that project — in the insertion order of the matches list, never
re-sorted — a project appears in the output exactly when such a match
exists, and aggregating the same match list twice yields structurally equal
manifests (the aggregation is a pure function of its input). -/
theorem group_matches_spec (ms : List MatchResult) (k : String) :
    lookupFiles k (group_matches_by_project ms) =
      (ms.filter (fun m => keepMatch m && (pidOf m == some k))).flatMap
        matchProjFiles ∧
    containsKey (group_matches_by_project ms) k =
      ms.any (fun m => keepMatch m && (pidOf m == some k)) ∧
    group_matches_by_project ms = group_matches_by_project ms := by
  refine ⟨?_, ?_, rfl⟩
  · have h := lookupFiles_group_fold ms [] k
    simpa [group_matches_by_project, lookupFiles] using h
  · have h := containsKey_group_fold ms [] k
    simpa [group_matches_by_project, containsKey] using h

theorem map_fst_update (k : String) (fs : List ProjFile) :
    ∀ acc : List (String × ProjectGroup),
      (updateGroupFiles acc k fs).map Prod.fst = acc.map Prod.fst := by
  intro acc
  induction acc with
  | nil => simp [updateGroupFiles]
  | cons e acc ih =>
    obtain ⟨k1, g⟩ := e
    cases hek : (k1 == k) with
    | true =>
      simp only [updateGroupFiles]
      rw [if_pos hek]
      simp
    | false =>
      simp only [updateGroupFiles]
      rw [if_neg (by simp [hek])]
      simp only [List.map_cons, ih]

theorem not_mem_keys_of_not_containsKey {acc : List (String × ProjectGroup)}
    {k : String} (h : containsKey acc k = false) : k ∉ acc.map Prod.fst := by
  intro hmem
  obtain ⟨e, he, hfst⟩ := List.mem_map.mp hmem
  have h2 : acc.any (fun e => e.1 == k) = false := h
  have h3 := List.any_eq_false.mp h2 e he
  simp [hfst] at h3

theorem group_keys_nodup_fold :
    ∀ (ms : List MatchResult) (acc : List (String × ProjectGroup)),
      (acc.map Prod.fst).Nodup → ((ms.foldl group_step acc).map Prod.fst).Nodup := by
  intro ms
  induction ms with
  | nil => intro acc h; simpa using h
  | cons m ms ih =>
    intro acc h
    rw [List.foldl_cons]
    apply ih
    cases hproj : m.project with
    | none => simpa [group_step, hproj] using h
    | some p =>
      cases hemp : m.matched_files.isEmpty with
      | true => simpa [group_step, hproj, hemp] using h
      | false =>
        have hg : group_step acc m =
            updateGroupFiles
              (if containsKey acc p.project_limsid = true then acc
               else acc ++
                 [(p.project_limsid,
                   ⟨p.project_name, p.project_limsid, p.project_uri, []⟩)])
              p.project_limsid (matchProjFiles m) := by
          simp [group_step, hproj, hemp]
        rw [hg, map_fst_update]
        by_cases hc : containsKey acc p.project_limsid = true
        · rw [if_pos hc]
          exact h
        · rw [if_neg hc]
          have hcf : containsKey acc p.project_limsid = false := by simpa using hc
          have hnm := not_mem_keys_of_not_containsKey hcf
          simp only [List.map_append, List.map_cons, List.map_nil]
          rw [List.nodup_append]
          refine ⟨h, List.nodup_singleton _, ?_⟩
          intro a ha hb
          simp only [List.mem_singleton] at hb
          subst hb
          exact hnm ha

theorem group_keys_nodup (ms : List MatchResult) :
    ((group_matches_by_project ms).map Prod.fst).Nodup :=
  group_keys_nodup_fold ms [] (by simp)

theorem create_zip_keys (ps : List (String × ProjectGroup)) :
    (create_project_zip_files ps).map Prod.fst = ps.map Prod.fst := by
  induction ps with
  | nil => rfl
  | cons e ps ih =>
    simp only [create_project_zip_files, List.map_cons] at ih ⊢
    rw [ih]

/-- C9 counterexample: the pipeline keeps no per-manifest status record — no
such structure exists anywhere in the repository — so a second invocation of
`main` on the unchanged input recomputes everything and produces a second
archive for the same project: two successive runs yield two archives keyed
by project `P1`, where the claim requires at most one. -/
theorem pipeline_rerun_duplicates_archives :
    ((pipeline_zips_two_runs
        [⟨"I1", "S1", some "S1_A", [⟨"S1_A.ab1", "S1_A.ab1", ".ab1", []⟩],
          some ⟨"P1", "Proj", "uri1"⟩⟩]).filter
      (fun e => e.1 == "P1")).length = 2 ∧
    ((pipeline_zips
        [⟨"I1", "S1", some "S1_A", [⟨"S1_A.ab1", "S1_A.ab1", ".ab1", []⟩],
          some ⟨"P1", "Proj", "uri1"⟩⟩]).filter
      (fun e => e.1 == "P1")).length = 1 := by decide

/-- C9 (amended): within a single invocation the pipeline creates at most
one archive per project (the archive list is keyed by pairwise-distinct
project LIMS ids), and the per-run stage records are monotone in the
containment sense — every uploaded archive comes from a created archive and
every published file from an uploaded archive — but no status record
survives the run, so a re-run cannot detect completed stages. -/
theorem pipeline_single_run_stages (ms : List MatchResult)
    (up : String → Option (String × String)) (pub : String → Bool) :
    ((pipeline_zips ms).map Prod.fst).Nodup ∧
    (∀ u ∈ upload_project_zips up (pipeline_zips ms),
        ∃ z ∈ pipeline_zips ms,
          z.1 = u.project_limsid ∧ (z.2).zip_filename = u.zip_filename) ∧
    (∀ pf ∈ publish_files_to_lablink pub (upload_project_zips up (pipeline_zips ms)),
        ∃ u ∈ upload_project_zips up (pipeline_zips ms),
          u.file_limsid = pf.file_limsid ∧ u.project_limsid = pf.project_limsid) := by
  refine ⟨?_, ?_, ?_⟩
  · rw [pipeline_zips, create_zip_keys]
    exact group_keys_nodup ms
  · intro u hu
    simp only [upload_project_zips, List.mem_filterMap] at hu
    obtain ⟨a, ha, hh⟩ := hu
    obtain ⟨r, hr, hfu⟩ := Option.map_eq_some'.mp hh
    subst hfu
    exact ⟨a, ha, rfl, rfl⟩
  · intro pf hp
    simp only [publish_files_to_lablink, List.mem_map, List.mem_filter] at hp
    obtain ⟨u, ⟨hu, hpub⟩, hfu⟩ := hp
    subst hfu
    exact ⟨u, hu, rfl, rfl⟩

/-- Witness for C9 (amended) at a concrete single-project run with a
successful upload and publish. -/
theorem pipeline_single_run_stages_witness :
    ∃ z ∈ pipeline_zips
        [⟨"I1", "S1", some "S1_A", [⟨"S1_A.ab1", "S1_A.ab1", ".ab1", []⟩],
          some ⟨"P1", "Proj", "uri1"⟩⟩],
      z.1 = ("P1" : String) ∧ (z.2).zip_filename = "Proj_sequencing_files.zip" :=
  (pipeline_single_run_stages
      [⟨"I1", "S1", some "S1_A", [⟨"S1_A.ab1", "S1_A.ab1", ".ab1", []⟩],
        some ⟨"P1", "Proj", "uri1"⟩⟩]
      (fun pid => if pid == "P1" then some ("F1", "furi1") else none)
      (fun _ => true)).2.1
    ⟨"Proj", "P1", "uri1", "Proj_sequencing_files.zip", "F1", "furi1", 1⟩
    (by decide)

theorem lookupBundle_cons_pos (k1 : String) (vs : List FileInfo)
    (acc : List (String × List FileInfo)) (k : String) (h : (k1 == k) = true) :
    lookupBundle k ((k1, vs) :: acc) = vs := by
  have hf : List.find? (fun e => e.1 == k) ((k1, vs) :: acc) = some (k1, vs) :=
    List.find?_cons_of_pos _ h
  simp [lookupBundle, hf]

theorem lookupBundle_cons_neg (k1 : String) (vs : List FileInfo)
    (acc : List (String × List FileInfo)) (k : String) (h : (k1 == k) = false) :
    lookupBundle k ((k1, vs) :: acc) = lookupBundle k acc := by
  have hf : List.find? (fun e => e.1 == k) ((k1, vs) :: acc) =
      List.find? (fun e => e.1 == k) acc :=
    List.find?_cons_of_neg _ (by simp [h])
  simp [lookupBundle, hf]

theorem lookupBundle_addToKey (k kq : String) (v : FileInfo) :
    ∀ acc : List (String × List FileInfo),
      lookupBundle kq (addToKey acc k v) =
        if (k == kq) = true then lookupBundle kq acc ++ [v]
        else lookupBundle kq acc := by
  intro acc
  induction acc with
  | nil =>
    cases hk : (k == kq) with
    | true =>
      rw [if_pos rfl]
      simp only [addToKey]
      rw [lookupBundle_cons_pos _ _ _ _ hk]
      rfl
    | false =>
      rw [if_neg (by simp [hk])]
      simp only [addToKey]
      rw [lookupBundle_cons_neg _ _ _ _ hk]
  | cons e acc ih =>
    obtain ⟨k1, vs⟩ := e
    cases hek : (k1 == k) with
    | true =>
      have hk1 : k1 = k := by simpa using hek
      simp only [addToKey]
      rw [if_pos hek]
      cases hq : (k1 == kq) with
      | true =>
        have hkq : (k == kq) = true := by
          rw [← hk1]; exact hq
        rw [if_pos hkq, lookupBundle_cons_pos _ _ _ _ hq,
          lookupBundle_cons_pos _ _ _ _ hq]
      | false =>
        have hkq : (k == kq) = false := by
          rw [← hk1]; exact hq
        rw [if_neg (by simp [hkq]), lookupBundle_cons_neg _ _ _ _ hq,
          lookupBundle_cons_neg _ _ _ _ hq]
    | false =>
      simp only [addToKey]
      rw [if_neg (by simp [hek])]
      cases hq : (k1 == kq) with
      | true =>
        have hkq : (k == kq) = false := by
          have h1 : k1 = kq := by simpa using hq
          have h2 : k1 ≠ k := by simpa using hek
          simp only [beq_eq_false_iff_ne]
          intro hh
          exact h2 (h1.trans hh.symm)
        rw [if_neg (by simp [hkq]), lookupBundle_cons_pos _ _ _ _ hq,
          lookupBundle_cons_pos _ _ _ _ hq]
      | false =>
        rw [lookupBundle_cons_neg _ _ _ _ hq, lookupBundle_cons_neg _ _ _ _ hq, ih]

theorem lookupBundle_interact_fold :
    ∀ (fs : List (String × List Nat)) (acc : List (String × List FileInfo))
      (k : String),
      lookupBundle k
        (fs.foldl (fun acc f =>
          addToKey acc (bundleKey f.1) ⟨f.1, pyBasename f.1, bundleExt f.1, f.2⟩) acc) =
        lookupBundle k acc ++
          (fs.filter (fun f => bundleKey f.1 == k)).map
            (fun f => ⟨f.1, pyBasename f.1, bundleExt f.1, f.2⟩) := by
  intro fs
  induction fs with
  | nil => intro acc k; simp
  | cons f fs ih =>
    intro acc k
    rw [List.foldl_cons, ih, lookupBundle_addToKey, List.filter_cons]
    cases hk : (bundleKey f.1 == k) with
    | true =>
      rw [if_pos rfl, if_pos (by simp [hk]), List.map_cons, List.append_assoc]
      rfl
    | false =>
      rw [if_neg (by simp [hk]), if_neg (by simp [hk])]

/-- C10: bundles are keyed by the base filename (directory prefix stripped
first, then the extension removed), so two surviving zip members that share
a base filename always land in the same bundle — demonstrated concretely by
`runA/s1.ab1` and `runB/s1.ab1` merging into the single bundle `s1`; and the
project archives store every file under its recorded `filename`, which the
aggregation set to the file's `base_filename` (directory structure is not
preserved), so those two files produce two identically named `s1.ab1`
entries in the same archive. -/
theorem bundle_grouping_spec :
    (∀ (files : List (String × List Nat)) (k : String),
        lookupBundle k (interact_with_ab1_files files) =
          ((files.filter (fun f => keepZipName f.1)).filter
            (fun f => bundleKey f.1 == k)).map
            (fun f => ⟨f.1, pyBasename f.1, bundleExt f.1, f.2⟩)) ∧
    (∀ f1 f2 : String, pyBasename f1 = pyBasename f2 → bundleKey f1 = bundleKey f2) ∧
    (∀ m : MatchResult,
        (matchProjFiles m).map (fun f => f.filename) =
          m.matched_files.map (fun fi => fi.base_filename)) ∧
    (∀ g : List ProjFile,
        (zip_entries g).map (fun e => e.name) = g.map (fun f => f.filename)) ∧
    interact_with_ab1_files [("runA/s1.ab1", [1]), ("runB/s1.ab1", [2])] =
      [("s1", [⟨"runA/s1.ab1", "s1.ab1", ".ab1", [1]⟩,
               ⟨"runB/s1.ab1", "s1.ab1", ".ab1", [2]⟩])] ∧
    (zip_entries [⟨"s1.ab1", [1], "A1", "L1"⟩, ⟨"s1.ab1", [2], "A2", "L2"⟩]).map
      (fun e => e.name) = ["s1.ab1", "s1.ab1"] := by
  refine ⟨?_, ?_, ?_, ?_, by decide, by decide⟩
  · intro files k
    have h := lookupBundle_interact_fold (files.filter (fun f => keepZipName f.1)) [] k
    simpa [interact_with_ab1_files, lookupBundle] using h
  · intro f1 f2 h
    simp only [bundleKey, h]
  · intro m
    simp [matchProjFiles, List.map_map, Function.comp]
  · intro g
    simp [zip_entries, List.map_map, Function.comp]

/-- Witness for C10 at the two concrete same-named files. -/
theorem bundle_grouping_spec_witness :
    bundleKey "runA/s1.ab1" = bundleKey "runB/s1.ab1" :=
  bundle_grouping_spec.2.1 "runA/s1.ab1" "runB/s1.ab1" (by decide)
